import Mathlib

/-!
Verification of the Pixie PxL compiler front-end
(src/carnot/planner/compiler/ast_visitor.cc) against its natural-language
specification.

The data model (IR arena, script objects, variable table) and the evaluator
routines that the claims touch are shallowly embedded as executable Lean
definitions, translated from the source.  Behavior of collaborator code that
lives outside the file under audit — the recursive expression evaluator
`Process` when invoked on subtrees, `FuncObject::Call`, and
`QLObject::AssignAttribute` — is abstracted as oracle parameters: arbitrary
state-transforming functions, so every theorem quantifies over all possible
behaviors of those collaborators.
-/

namespace Pixie

/-- Single-quote character, used to reproduce the source's error strings. -/
def sq : String := String.singleton (Char.ofNat 39)

/-- Carnot data types (types::DataType) relevant to the front-end. -/
inductive DataType where
  | BOOLEAN
  | STRING
  | INT64
  | FLOAT64
  | DURATION64NS
  | TIME64NS
  | UINT128
  | UNKNOWN
  deriving DecidableEq

/-- Opcodes of FuncIR operators (FuncIR::Opcode). -/
inductive FuncOpcode where
  | non_op
  | add
  | sub
  | mult
  | div
  | eq
  | neq
  | lt
  | gt
  | lteq
  | gteq
  | logAnd
  | logOr
  | mod
  | negate
  | logNot
  deriving DecidableEq

/-- FuncIR::Op: an opcode together with its carnot operator name. -/
structure FuncOp where
  op_code : FuncOpcode
  carnot_op_name : String
  deriving DecidableEq

/-- IR nodes owned by the arena.  Scalar literals, column references and
function applications are expressions; Map / MemorySink / other relational
nodes are operators.  C++ doubles are represented abstractly by rationals
(no claim depends on floating-point arithmetic; float values are only
stored, never computed with). -/
inductive IRNode where
  | boolIR (val : Bool)
  | intIR (val : Int)
  | floatIR (val : Rat)
  | stringIR (str : String)
  | timeIR (val : Int)
  | columnIR (col_name : String)
  | funcIR (op : FuncOp) (args : List Nat)
  | mapIR (parent : Nat) (col_name : String) (col_expr : Nat)
  | memorySinkIR (parent : Option Nat) (name : String) (out_columns : List String)
  | operatorIR (kindName : String) (parents : List Nat)
  deriving DecidableEq

/-- Whether a node is an ExpressionIR. -/
def IRNode.isExpression : IRNode → Bool
  | .boolIR _ => true
  | .intIR _ => true
  | .floatIR _ => true
  | .stringIR _ => true
  | .timeIR _ => true
  | .columnIR _ => true
  | .funcIR _ _ => true
  | _ => false

/-- The ids of the nodes a node holds edges to (its operands/parents). -/
def IRNode.operands : IRNode → List Nat
  | .funcIR _ args => args
  | .mapIR parent _ colExpr => [parent, colExpr]
  | .memorySinkIR parent _ _ => parent.toList
  | .operatorIR _ parents => parents
  | _ => []

/-- First-match association lookup over node ids. -/
def assocFind (k : Nat) : List (Nat × IRNode) → Option IRNode
  | [] => none
  | (k', v) :: rest => if k' = k then some v else assocFind k rest

/-- The IR graph arena: node storage plus the next fresh id. -/
structure IR where
  nodes : List (Nat × IRNode)
  next_id : Nat
  deriving DecidableEq

def IR.find (g : IR) (id : Nat) : Option IRNode := assocFind id g.nodes

/-- IR::CreateNode: allocates a node under a fresh stable id. -/
def IR.CreateNode (g : IR) (n : IRNode) : IR × Nat :=
  (⟨g.nodes ++ [(g.next_id, n)], g.next_id + 1⟩, g.next_id)

/-- Whether some live node holds an edge to `id`. -/
def IR.HasConsumers (g : IR) (id : Nat) : Bool :=
  g.nodes.any (fun p => (p.2.operands).contains id)

/-- IR::DeleteNode: removes a node; fails if it is absent or if a live node
still consumes it (spec section 4.1). -/
def IR.DeleteNode (g : IR) (id : Nat) : Except String IR :=
  match assocFind id g.nodes with
  | none => .error "Node does not exist in graph."
  | some _ =>
    if IR.HasConsumers g id then .error "Cannot delete node with live consumers."
    else .ok ⟨g.nodes.filter (fun p => decide (p.1 ≠ id)), g.next_id⟩

/-- Arena well-formedness: every stored id is below the fresh-id counter. -/
def IR.WF (g : IR) : Prop := ∀ p ∈ g.nodes, p.1 < g.next_id

def emptyIR : IR := ⟨[], 0⟩

/-- QLObjectType tags (objects/qlobject.h). -/
inductive QLObjectType where
  | kExpr
  | kDataframe
  | kType
  | kNone
  | kFunction
  | kList
  | kTuple
  | kModule
  deriving DecidableEq

/-- The declaration data of a FuncObject: its name, its ordered parameter
names, and the per-parameter type annotations that were resolved to types
(FuncObject::arguments / FuncObject::arg_types). -/
structure FuncData where
  name : String
  arguments : List String
  argTypes : List (String × DataType)
  deriving DecidableEq

/-- Script-visible objects (the QLObject hierarchy).  Function bodies are
external collaborator code; a funcObject carries only its declaration data,
and invocation is threaded through a call oracle. -/
inductive QLObject where
  | expr (nid : Nat)
  | dataframe (op : Option Nat)
  | typeObject (dt : DataType)
  | noneObject
  | funcObject (fd : FuncData)
  | listObject (items : List QLObject)
  | tupleObject (items : List QLObject)
  | moduleObject (name : String)

def QLObject.qlType : QLObject → QLObjectType
  | .expr _ => .kExpr
  | .dataframe _ => .kDataframe
  | .typeObject _ => .kType
  | .noneObject => .kNone
  | .funcObject _ => .kFunction
  | .listObject _ => .kList
  | .tupleObject _ => .kTuple
  | .moduleObject _ => .kModule

/-- QLObject::node(): the backing IR node id, when the object has one.
An ExprObject wraps an expression node; a Dataframe's node is its operator. -/
def QLObject.nodeId : QLObject → Option Nat
  | .expr nid => some nid
  | .dataframe op => op
  | _ => none

/-- The operator a Dataframe wraps, if the object is a Dataframe. -/
def QLObject.dfOp : QLObject → Option Nat
  | .dataframe op => op
  | _ => none

/-- QLObject::name(), as used inside diagnostics (the exact text of
collaborator-produced names is not semantically load-bearing for any
claim; theorems about these paths assert only that an error is produced). -/
def QLObject.objName : QLObject → String
  | .expr _ => "expression"
  | .dataframe _ => "dataframe"
  | .typeObject _ => "type"
  | .noneObject => "None"
  | .funcObject fd => fd.name
  | .listObject _ => "list"
  | .tupleObject _ => "tuple"
  | .moduleObject n => n

/-- CollectionObject::IsCollection. -/
def CollectionIsCollection : QLObject → Bool
  | .listObject _ => true
  | .tupleObject _ => true
  | _ => false

/-- The elements of a collection object. -/
def QLObject.items : QLObject → List QLObject
  | .listObject xs => xs
  | .tupleObject xs => xs
  | _ => []

/-- First-match association lookup over names. -/
def lookupStr (k : String) : List (String × QLObject) → Option QLObject
  | [] => none
  | (k', v) :: rest => if k' = k then some v else lookupStr k rest

/-- VarTable: name → object bindings of the current scope.  Add shadows any
older binding; Lookup returns the most recent one, matching the observable
behavior of the source's map assignment and lookup. -/
structure VarTable where
  vars : List (String × QLObject)

def VarTable.Add (t : VarTable) (name : String) (obj : QLObject) : VarTable :=
  ⟨(name, obj) :: t.vars⟩

def VarTable.Lookup (t : VarTable) (name : String) : Option QLObject :=
  lookupStr name t.vars

def emptyVarTable : VarTable := ⟨[]⟩

/-- The state an evaluation threads: the IR arena and the variable table. -/
structure EvalState where
  graph : IR
  table : VarTable

/-- OperatorContext: parent operators, current operator role, and the
dataframe names whose columns may be referenced. -/
structure OperatorContext where
  parent_ops : List Nat
  operator_name : String
  referenceable_dataframes : List String

/-- Modelled from the spec: Dataframe::kMapOpId (objects/dataframe.h, outside
the audited file): the role tag naming the map-operator position. -/
def Dataframe_kMapOpId : String := "map"

/-- Modelled from the spec: FuncIR::op_map (ir/, outside the audited file) —
the fixed table from binary/boolean/comparison operator symbols to opcodes. -/
def op_map : List (String × FuncOp) :=
  [("*", ⟨.mult, "multiply"⟩), ("+", ⟨.add, "add"⟩), ("-", ⟨.sub, "subtract"⟩),
   ("/", ⟨.div, "divide"⟩), ("%", ⟨.mod, "modulo"⟩),
   ("==", ⟨.eq, "equal"⟩), ("!=", ⟨.neq, "notEqual"⟩),
   ("<", ⟨.lt, "lessThan"⟩), (">", ⟨.gt, "greaterThan"⟩),
   ("<=", ⟨.lteq, "lessThanEqual"⟩), (">=", ⟨.gteq, "greaterThanEqual"⟩),
   ("and", ⟨.logAnd, "logicalAnd"⟩), ("or", ⟨.logOr, "logicalOr"⟩)]

/-- Modelled from the spec: FuncIR::unary_op_map (ir/, outside the audited
file) — the fixed unary table; unary + carries the no-op opcode. -/
def unary_op_map : List (String × FuncOp) :=
  [("+", ⟨.non_op, ""⟩), ("-", ⟨.negate, "negate"⟩), ("not", ⟨.logNot, "logicalNot"⟩),
   ("~", ⟨.logNot, "invert"⟩)]

/-- First-match association lookup over operator symbols. -/
def opFind (k : String) : List (String × FuncOp) → Option FuncOp
  | [] => none
  | (k', v) :: rest => if k' = k then some v else opFind k rest

/-- ASTVisitorImpl::GetOp (ast_visitor.cc:20): map a binary operator symbol
through FuncIR::op_map, failing on a miss. -/
def GetOp (python_op : String) : Except String FuncOp :=
  match opFind python_op op_map with
  | none => .error ("Operator " ++ sq ++ python_op ++ sq ++ " not handled")
  | some op => .ok op

/-- ASTVisitorImpl::GetUnaryOp (ast_visitor.cc:28): map a unary operator
symbol through FuncIR::unary_op_map.  The source tests the unary map's find
result against op_map.end(); both maps are absl::flat_hash_map, whose end
iterators are value-equal across containers (a default iterator with a null
control pointer), so the guard fires exactly when the unary lookup misses. -/
def GetUnaryOp (python_op : String) : Except String FuncOp :=
  match opFind python_op unary_op_map with
  | none => .error ("Unary Operator " ++ sq ++ python_op ++ sq ++ " not handled")
  | some op => .ok op

/-- Names bound by InitGlobals; the constants are declared in ast_visitor.h
(outside the audited file), with the values the spec records. -/
def kStringTypeName : String := "string"

def kIntTypeName : String := "int"

def kFloatTypeName : String := "float"

def kBoolTypeName : String := "bool"

def kNoneName : String := "None"

def kTrueName : String := "True"

def kFalseName : String := "False"

/-- ASTVisitorImpl::CreateBoolLiterals (ast_visitor.cc:94): materialize Bool
literal IR nodes for True and False and bind Expr objects over them. -/
def CreateBoolLiterals (s : EvalState) : EvalState :=
  let c₁ := s.graph.CreateNode (.boolIR true)
  let t₁ := s.table.Add kTrueName (.expr c₁.2)
  let c₂ := c₁.1.CreateNode (.boolIR false)
  let t₂ := t₁.Add kFalseName (.expr c₂.2)
  ⟨c₂.1, t₂⟩

/-- ASTVisitorImpl::InitGlobals (ast_visitor.cc:78): populate the root scope
with the primitive type sentinels and None, then the bool literals.
TypeObject::Create(IRNodeType) stores the corresponding data type. -/
def InitGlobals (s : EvalState) : EvalState :=
  let t := s.table.Add kStringTypeName (.typeObject .STRING)
  let t := t.Add kIntTypeName (.typeObject .INT64)
  let t := t.Add kFloatTypeName (.typeObject .FLOAT64)
  let t := t.Add kBoolTypeName (.typeObject .BOOLEAN)
  let t := t.Add kNoneName .noneObject
  CreateBoolLiterals ⟨s.graph, t⟩

/-- The denotation of evaluating one syntax subtree: what
ASTVisitorImpl::Process does on it under a given operator context.  The
recursive evaluator is threaded through the embedded routines as an oracle
of this type, so theorems hold for every behavior of the subexpressions. -/
def ProcessOracle : Type :=
  OperatorContext → EvalState → Except String (QLObject × EvalState)

/-- The syntactic kind of an assignment-target subtree, as far as the
embedded routines inspect it (pypa::AstType of the node). -/
inductive AstExprKind where
  | nameE (id : String)
  | subscriptE
  | attributeE
  | callE
  | otherE (tag : String)

/-- GetAstTypeName on the modelled kinds. -/
def astTypeName : AstExprKind → String
  | .nameE _ => "Name"
  | .subscriptE => "Subscript"
  | .attributeE => "Attribute"
  | .callE => "Call"
  | .otherE tag => tag

/-- GetArgAs of ExpressionIR (ast_visitor.h, outside the audited file,
modelled from its uses): requires the object to wrap a live IR node that is
an expression, and yields that node's id. -/
def GetArgAsExpr (s : EvalState) (obj : QLObject) (desc : String) :
    Except String Nat :=
  match obj.nodeId with
  | none => .error ("Expected " ++ desc ++ " to be an expression")
  | some nid =>
    match s.graph.find nid with
    | none => .error ("Expected " ++ desc ++ " to be an expression")
    | some n =>
      if n.isExpression then .ok nid
      else .error ("Expected " ++ desc ++ " to be an expression")

/-- GetArgAs of ColumnIR, modelled likewise: requires a live column-reference
node and yields its id and column name. -/
def GetArgAsColumn (s : EvalState) (obj : QLObject) (desc : String) :
    Except String (Nat × String) :=
  match obj.nodeId with
  | none => .error ("Expected " ++ desc ++ " to be a column")
  | some nid =>
    match s.graph.find nid with
    | some (.columnIR cname) => .ok (nid, cname)
    | _ => .error ("Expected " ++ desc ++ " to be a column")

/-- Modelled from the spec: Dataframe::FromColumnAssignment
(objects/dataframe.cc, outside the audited file): produce a new Dataframe
whose operator is a Map rooted at the parent dataframe's operator, assigning
the named column to the given expression. -/
def FromColumnAssignment (g : IR) (parentOp : Nat) (colName : String)
    (exprId : Nat) : IR × QLObject :=
  let c := g.CreateNode (.mapIR parentOp colName exprId)
  (c.1, .dataframe (some c.2))

/-- ASTVisitorImpl::ProcessMapAssignment (ast_visitor.cc:478).  The target
must be a bare Name; the already-evaluated subscript LHS must be a column
reference; the parent Dataframe must have an operator.  The RHS subtree
(`rhs`, the denotation of Process on expr_node) is evaluated in an operator
context rooted at the parent operator that names the assigned dataframe; a
new Dataframe from column assignment is bound to the source variable name,
and the LHS column node is deleted from the arena. -/
def ProcessMapAssignment (rhs : ProcessOracle) (assign_target : AstExprKind)
    (parent_df_op : Option Nat) (target_node : QLObject) (s : EvalState) :
    Except String EvalState :=
  match assign_target with
  | .nameE assign_name_string =>
    match GetArgAsColumn s target_node "assignment value" with
    | .error e => .error e
    | .ok (colId, colName) =>
      match parent_df_op with
      | none =>
        .error "Cannot assign column to dataframe that does not contain an operator"
      | some parentOp =>
        let op_context : OperatorContext :=
          ⟨[parentOp], Dataframe_kMapOpId, [assign_name_string]⟩
        match rhs op_context s with
        | .error e => .error e
        | .ok (expr_obj, s₁) =>
          match GetArgAsExpr s₁ expr_obj "assignment value" with
          | .error e => .error e
          | .ok exprId =>
            let c := FromColumnAssignment s₁.graph parentOp colName exprId
            let t₂ := s₁.table.Add assign_name_string c.2
            match IR.DeleteNode c.1 colId with
            | .error e => .error e
            | .ok g₃ => .ok ⟨g₃, t₂⟩
  | k =>
    .error ("Can only assign to Dataframe by subscript from Name, received "
      ++ astTypeName k)

/-- ASTVisitorImpl::GetAttributeStr (ast_visitor.cc:823): the attribute of
the node must syntactically be a Name. -/
def GetAttributeStr (attr_attribute : AstExprKind) : Except String String :=
  match attr_attribute with
  | .nameE s => .ok s
  | k => .error (astTypeName k ++ " not a valid attribute")

/-- ASTVisitorImpl::ProcessAttributeAssignment (ast_visitor.cc:459).
`processValue` denotes Process(attr->value, {{}, "", {}}); `processAttr`
denotes Process(attr, {{}, "", {}}); `rhs` denotes Process on expr_node.
If the target is not a Dataframe, the RHS is evaluated and AssignAttribute
is dispatched on the target (the source casts expr_node's pointer to a Call
node, but the cast is a shared_ptr down-then-up conversion with no
behavioral effect: Process receives the same base pointer and dispatches on
the node's own stored type).  If the target is a Dataframe, the attribute
node itself is evaluated and the map-assignment path is taken. -/
def ProcessAttributeAssignment (processValue : EvalState → Except String (QLObject × EvalState))
    (processAttr : EvalState → Except String (QLObject × EvalState))
    (rhs : ProcessOracle)
    (assignAttribute : QLObject → String → QLObject → EvalState → Except String EvalState)
    (attr_attribute : AstExprKind) (attr_value : AstExprKind) (s : EvalState) :
    Except String EvalState :=
  match processValue s with
  | .error e => .error e
  | .ok (target, s₁) =>
    if target.qlType ≠ .kDataframe then
      match GetAttributeStr attr_attribute with
      | .error e => .error e
      | .ok attr_name =>
        match rhs ⟨[], "", []⟩ s₁ with
        | .error e => .error e
        | .ok (value, s₂) => assignAttribute target attr_name value s₂
    else
      match processAttr s₁ with
      | .error e => .error e
      | .ok (processed_node, s₂) =>
        ProcessMapAssignment rhs attr_value target.dfOp processed_node s₂

/-- ASTVisitorImpl::ProcessDataUnaryOp (ast_visitor.cc:956).  `operandD`
denotes Process(node->operand, op_context); `op_str` is the operator's
symbol.  When the opcode is the no-op, the operand's node is passed through
unchanged; otherwise a function-application node over it is created. -/
def ProcessDataUnaryOp (operandD : ProcessOracle) (op_str : String)
    (op_context : OperatorContext) (s : EvalState) :
    Except String (QLObject × EvalState) :=
  match operandD op_context s with
  | .error e => .error e
  | .ok (operand_obj, s₁) =>
    match GetArgAsExpr s₁ operand_obj "operand of unary op" with
    | .error e => .error e
    | .ok operand =>
      match GetUnaryOp op_str with
      | .error e => .error e
      | .ok op =>
        if op.op_code = .non_op then .ok (.expr operand, s₁)
        else
          let c := s₁.graph.CreateNode (.funcIR op [operand])
          .ok (.expr c.2, ⟨c.1, s₁.table⟩)

/-- Evaluate the comparators of a Compare node in order, requiring each to
be an expression (the loop of ast_visitor.cc:945). -/
def ProcessCompareList (comps : List (EvalState → Except String (QLObject × EvalState)))
    (s : EvalState) : Except String (List Nat × EvalState) :=
  match comps with
  | [] => .ok ([], s)
  | c :: rest =>
    match c s with
    | .error e => .error e
    | .ok (obj, s₁) =>
      match GetArgAsExpr s₁ obj "argument to operation" with
      | .error e => .error e
      | .ok eid =>
        match ProcessCompareList rest s₁ with
        | .error e => .error e
        | .ok (ids, s₂) => .ok (eid :: ids, s₂)

/-- ASTVisitorImpl::ProcessDataCompare (ast_visitor.cc:932).  `operators`
holds the operator symbols; `leftD` denotes Process(node->left, ·) and
`comps` the denotations of the comparators.  The source reads operators[0]
unconditionally after DCHECK_EQ(operators.size(), 1) — a no-op in release
builds — so the embedding takes the head with a default, faithful whenever
the operator list is nonempty (which the parser guarantees).  The operand
denotations are taken at the ambient operator context. -/
def ProcessDataCompare (operators : List String)
    (leftD : EvalState → Except String (QLObject × EvalState))
    (comps : List (EvalState → Except String (QLObject × EvalState)))
    (s : EvalState) :
    Except String (QLObject × EvalState) :=
  let op_str := operators.headD ""
  if comps.length ≠ 1 then
    .error ("Only expected one argument to the right of " ++ sq ++ op_str ++ sq ++ ".")
  else
    match leftD s with
    | .error e => .error e
    | .ok (left_obj, s₁) =>
      match GetArgAsExpr s₁ left_obj "left side of operation" with
      | .error e => .error e
      | .ok leftId =>
        match ProcessCompareList comps s₁ with
        | .error e => .error e
        | .ok (ids, s₂) =>
          match GetOp op_str with
          | .error e => .error e
          | .ok op =>
            let c := s₂.graph.CreateNode (.funcIR op (leftId :: ids))
            .ok (.expr c.2, ⟨c.1, s₂.table⟩)

/-- One named argument of an exec-entry descriptor (FuncToExecute::ArgValue):
an argument name and its externally supplied string value. -/
structure ArgValue where
  name : String
  value : String

/-- An exec-entry descriptor (FuncToExecute). -/
structure FuncToExecute where
  func_name : String
  output_table_pfx : String
  arg_values : List ArgValue

/-- The argument map handed to FuncObject::Call. -/
structure ArgMap where
  args : List QLObject
  kwargs : List (String × QLObject)

/-- Membership test over the declared parameter list (std::find over
FuncObject::arguments). -/
def containsStr (x : String) : List String → Bool
  | [] => false
  | y :: rest => if y = x then true else containsStr x rest

/-- First-match lookup in the annotation-type map (FuncObject::arg_types). -/
def lookupType (k : String) : List (String × DataType) → Option DataType
  | [] => none
  | (k', v) :: rest => if k' = k then some v else lookupType k rest

/-- ASTVisitorImpl::ParseStringAsType (ast_visitor.cc:154): coerce an
externally supplied string to a literal IR node of the annotated data type
and wrap it in an Expr object.  The permissive string parsers are the absl
SimpleAtob/SimpleAtoi/SimpleAtod routines (external library code), threaded
as oracle parameters `atob`, `atoi`, `atod`. -/
def ParseStringAsType (atob : String → Option Bool) (atoi : String → Option Int)
    (atod : String → Option Rat) (g : IR) (value : String) (dt : DataType) :
    Except String (QLObject × IR) :=
  match dt with
  | .BOOLEAN =>
    match atob value with
    | none =>
      .error ("Failed to parse arg with value " ++ sq ++ value ++ sq ++ " as bool.")
    | some b =>
      let c := g.CreateNode (.boolIR b)
      .ok (.expr c.2, c.1)
  | .STRING =>
    let c := g.CreateNode (.stringIR value)
    .ok (.expr c.2, c.1)
  | .INT64 =>
    match atoi value with
    | none =>
      .error ("Failed to parse arg with value " ++ sq ++ value ++ sq ++ " as int64.")
    | some v =>
      let c := g.CreateNode (.intIR v)
      .ok (.expr c.2, c.1)
  | .FLOAT64 =>
    match atod value with
    | none =>
      .error ("Failed to parse arg with value " ++ sq ++ value ++ sq ++ " as float64.")
    | some v =>
      let c := g.CreateNode (.floatIR v)
      .ok (.expr c.2, c.1)
  | .DURATION64NS =>
    match atoi value with
    | none =>
      .error ("Failed to parse arg with value " ++ sq ++ value ++ sq ++ " as time.")
    | some v =>
      let c := g.CreateNode (.timeIR v)
      .ok (.expr c.2, c.1)
  | .TIME64NS =>
    match atoi value with
    | none =>
      .error ("Failed to parse arg with value " ++ sq ++ value ++ sq ++ " as time.")
    | some v =>
      let c := g.CreateNode (.timeIR v)
      .ok (.expr c.2, c.1)
  | .UINT128 => .error "Passing arg of type UINT128 is currently unsupported."
  | .UNKNOWN =>
    .error "All arguments to executed functions must have an underlying concrete type."

/-- The loop body of ProcessExecFuncArgs (ast_visitor.cc:208), with the
keyword accumulator made explicit: each supplied argument must name a
declared parameter, the parameter must carry a resolved type annotation, and
the string must coerce; the coerced Expr objects accumulate as kwargs. -/
def ProcessExecFuncArgsLoop (atob : String → Option Bool)
    (atoi : String → Option Int) (atod : String → Option Rat) (fd : FuncData)
    (arg_values : List ArgValue) (g : IR) (acc : List (String × QLObject)) :
    Except String (List (String × QLObject) × IR) :=
  match arg_values with
  | [] => .ok (acc, g)
  | a :: rest =>
    if containsStr a.name fd.arguments = false then
      .error ("Function " ++ sq ++ fd.name ++ sq ++ " does not have an argument called "
        ++ sq ++ a.name ++ sq)
    else
      match lookupType a.name fd.argTypes with
      | none =>
        .error ("Arg type annotation required. Function: " ++ sq ++ fd.name ++ sq
          ++ ", arg: " ++ sq ++ a.name ++ sq)
      | some dt =>
        match ParseStringAsType atob atoi atod g a.value dt with
        | .error e => .error e
        | .ok (node, g') =>
          ProcessExecFuncArgsLoop atob atoi atod fd rest g' (acc ++ [(a.name, node)])

/-- ASTVisitorImpl::ProcessExecFuncArgs (ast_visitor.cc:208): build the
argument map for an exec call; everything is passed as keyword arguments. -/
def ProcessExecFuncArgs (atob : String → Option Bool) (atoi : String → Option Int)
    (atod : String → Option Rat) (fd : FuncData) (arg_values : List ArgValue)
    (g : IR) : Except String (ArgMap × IR) :=
  match ProcessExecFuncArgsLoop atob atoi atod fd arg_values g [] with
  | .error e => .error e
  | .ok (kws, g') => .ok (⟨[], kws⟩, g')

/-- The denotation of FuncObject::Call for the function registered under a
given name (collaborator code outside the audited file), threaded as an
oracle. -/
def CallOracle : Type :=
  String → ArgMap → EvalState → Except String (QLObject × EvalState)

/-- The sink loop over a returned collection (ast_visitor.cc:279): every
element must be a Dataframe, and element i gets a MemorySink named
"prefix[i]" over its operator. -/
def ProcessExecSinkLoop (fname : String) (tablePfx : String)
    (items : List QLObject) (i : Nat) (g : IR) : Except String IR :=
  match items with
  | [] => .ok g
  | .dataframe op :: rest =>
    ProcessExecSinkLoop fname tablePfx rest (i + 1)
      (g.CreateNode (.memorySinkIR op (tablePfx ++ "[" ++ toString i ++ "]") [])).1
  | o :: _ =>
    .error ("Function " ++ sq ++ fname ++ sq ++ " returns " ++ sq ++ o.objName ++ sq
      ++ " at index " ++ toString i ++ ". All returned objects must be dataframes.")

/-- The return-wiring of one exec entry (ast_visitor.cc:266): a Dataframe
return gets a single MemorySink named with the output table prefix; a
collection return goes through the sink loop; anything else is an error. -/
def ProcessExecReturns (fname : String) (tablePfx : String) (ret : QLObject)
    (s : EvalState) : Except String EvalState :=
  if CollectionIsCollection ret = false then
    match ret with
    | .dataframe op =>
      .ok ⟨(s.graph.CreateNode (.memorySinkIR op tablePfx [])).1, s.table⟩
    | o =>
      .error ("Function " ++ sq ++ fname ++ sq ++ " returns " ++ sq ++ o.objName ++ sq
        ++ " but should return a DataFrame.")
  else
    match ProcessExecSinkLoop fname tablePfx (ret.items) 0 s.graph with
    | .error e => .error e
    | .ok g => .ok ⟨g, s.table⟩

/-- The body of the descriptor loop of ASTVisitorImpl::ProcessExecFuncs
(ast_visitor.cc:238): validate the descriptor, look the function up, build
the coerced argument map, invoke the call, and wire the result to sinks. -/
def ProcessExecFunc (call : CallOracle) (atob : String → Option Bool)
    (atoi : String → Option Int) (atod : String → Option Rat)
    (f : FuncToExecute) (s : EvalState) : Except String EvalState :=
  if f.func_name = "" then
    .error "Must specify func_name for each FuncToExecute."
  else if f.output_table_pfx = "" then
    .error ("Output_table_prefix must be specified for function " ++ f.func_name ++ ".")
  else
    match s.table.Lookup f.func_name with
    | none =>
      .error ("Function to execute, " ++ sq ++ f.func_name ++ sq ++ ", not found.")
    | some (.funcObject fd) =>
      match ProcessExecFuncArgs atob atoi atod fd f.arg_values s.graph with
      | .error e => .error e
      | .ok (argmap, g₁) =>
        match call f.func_name argmap ⟨g₁, s.table⟩ with
        | .error e => .error e
        | .ok (ret, s₂) => ProcessExecReturns f.func_name f.output_table_pfx ret s₂
    | some o =>
      .error (sq ++ f.func_name ++ sq ++ " is a " ++ sq ++ o.objName ++ sq
        ++ " not a function.")

/-- ASTVisitorImpl::ProcessExecFuncs (ast_visitor.cc:233): process each
descriptor in order, stopping at the first error. -/
def ProcessExecFuncs (call : CallOracle) (atob : String → Option Bool)
    (atoi : String → Option Int) (atod : String → Option Rat)
    (fs : List FuncToExecute) (s : EvalState) : Except String EvalState :=
  match fs with
  | [] => .ok s
  | f :: rest =>
    match ProcessExecFunc call atob atoi atod f s with
    | .error e => .error e
    | .ok s' => ProcessExecFuncs call atob atoi atod rest s'

/-- The statement kinds ProcessASTSuite dispatches on. -/
inductive StmtTag where
  | importS
  | importFromS
  | exprStmtS
  | assignS
  | funcDefS
  | docStringS (doc : String)
  | returnS
  | otherS (tagName : String)

/-- A statement of a suite: its syntactic kind together with the denotation
of its processor (ProcessImport / ProcessImportFrom / ProcessExprStmtNode /
ProcessAssignNode / ProcessFunctionDefNode for the status-returning kinds,
ProcessFuncDefReturn for a return statement). -/
structure StmtD where
  tag : StmtTag
  run : EvalState → Except String EvalState
  runRet : EvalState → Except String (QLObject × EvalState)

/-- The statement loop of ProcessASTSuite (ast_visitor.cc:331): a doc string
past the head is an error; a return is an error outside a function body and
otherwise ends the suite with the returned object; an unknown statement kind
is an error; falling off the end yields a None object. -/
def SuiteLoop (items : List StmtD) (is_function_definition_body : Bool)
    (s : EvalState) : Except String (QLObject × EvalState) :=
  match items with
  | [] => .ok (.noneObject, s)
  | st :: rest =>
    match st.tag with
    | .docStringS _ =>
      .error "Doc strings are only allowed at the start of a module or function."
    | .returnS =>
      if is_function_definition_body = false then
        .error (sq ++ "return" ++ sq ++ " outside function")
      else st.runRet s
    | .otherS tagName => .error ("Can't parse expression of type " ++ tagName)
    | _ =>
      match st.run s with
      | .error e => .error e
      | .ok s' => SuiteLoop rest is_function_definition_body s'

/-- ASTVisitorImpl::ProcessDocString (ast_visitor.cc:980): wrap the doc text
in a String IR node. -/
def ProcessDocString (doc : String) (s : EvalState) : QLObject × EvalState :=
  let c := s.graph.CreateNode (.stringIR doc)
  (.expr c.2, ⟨c.1, s.table⟩)

/-- ASTVisitorImpl::ProcessASTSuite (ast_visitor.cc:308): an empty statement
list is the "No runnable code found" error; a leading doc string is bound as
__doc__ for modules and dropped for function bodies; a module suite with no
leading doc string binds an empty __doc__; then the statement loop runs. -/
def ProcessASTSuite (items : List StmtD) (is_function_definition_body : Bool)
    (s : EvalState) : Except String (QLObject × EvalState) :=
  match items with
  | [] => .error "No runnable code found"
  | first :: rest =>
    match first.tag with
    | .docStringS doc =>
      if is_function_definition_body then SuiteLoop rest is_function_definition_body s
      else
        let r := ProcessDocString doc s
        SuiteLoop rest is_function_definition_body
          ⟨r.2.graph, r.2.table.Add "__doc__" r.1⟩
    | _ =>
      if is_function_definition_body then
        SuiteLoop (first :: rest) is_function_definition_body s
      else
        let c := s.graph.CreateNode (.stringIR "")
        SuiteLoop (first :: rest) is_function_definition_body
          ⟨c.1, s.table.Add "__doc__" (.expr c.2)⟩

/-! Arena lemmas. -/

lemma assocFind_mem {k : Nat} {v : IRNode} :
    ∀ {l : List (Nat × IRNode)}, assocFind k l = some v → (k, v) ∈ l := by
  intro l
  induction l with
  | nil => intro h; simp [assocFind] at h
  | cons p rest ih =>
    rcases p with ⟨a, b⟩
    intro h
    rw [assocFind] at h
    by_cases hk : a = k
    · rw [if_pos hk] at h
      injection h with h2
      rw [← hk, ← h2]
      exact List.mem_cons_self _ _
    · rw [if_neg hk] at h
      exact List.mem_cons_of_mem _ (ih h)

lemma assocFind_append_some {k : Nat} {v : IRNode} {l l₂ : List (Nat × IRNode)}
    (h : assocFind k l = some v) : assocFind k (l ++ l₂) = some v := by
  induction l with
  | nil => simp [assocFind] at h
  | cons p rest ih =>
    rcases p with ⟨a, b⟩
    rw [List.cons_append, assocFind]
    rw [assocFind] at h
    by_cases hk : a = k
    · rwa [if_pos hk] at h ⊢
    · rw [if_neg hk] at h ⊢
      exact ih h

lemma assocFind_append_none {k : Nat} {l l₂ : List (Nat × IRNode)}
    (h : assocFind k l = none) : assocFind k (l ++ l₂) = assocFind k l₂ := by
  induction l with
  | nil => simp
  | cons p rest ih =>
    rcases p with ⟨a, b⟩
    rw [List.cons_append, assocFind]
    rw [assocFind] at h
    by_cases hk : a = k
    · rw [if_pos hk] at h; cases h
    · rw [if_neg hk] at h ⊢
      exact ih h

lemma assocFind_filter_ne {k id : Nat} (h : k ≠ id) :
    ∀ {l : List (Nat × IRNode)},
      assocFind k (l.filter (fun p => decide (p.1 ≠ id))) = assocFind k l := by
  intro l
  induction l with
  | nil => simp
  | cons p rest ih =>
    rcases p with ⟨a, b⟩
    by_cases hp : a = id
    · have hak : a ≠ k := by
        rw [hp]
        exact fun hik => h hik.symm
      rw [List.filter_cons_of_neg (by simp [hp]), ih, assocFind, if_neg hak]
    · rw [List.filter_cons_of_pos (by simp [hp]), assocFind, assocFind]
      by_cases hk : a = k
      · rw [if_pos hk, if_pos hk]
      · rw [if_neg hk, if_neg hk, ih]

lemma assocFind_filter_self {id : Nat} :
    ∀ {l : List (Nat × IRNode)},
      assocFind id (l.filter (fun p => decide (p.1 ≠ id))) = none := by
  intro l
  induction l with
  | nil => simp [assocFind]
  | cons p rest ih =>
    rcases p with ⟨a, b⟩
    by_cases hp : a = id
    · rw [List.filter_cons_of_neg (by simp [hp]), ih]
    · rw [List.filter_cons_of_pos (by simp [hp]), assocFind, if_neg hp, ih]

lemma IR.find_none_of_le {g : IR} {k : Nat} (hwf : g.WF) (h : g.next_id ≤ k) :
    g.find k = none := by
  rcases hfind : g.find k with _ | v
  · rfl
  · have hmem := assocFind_mem hfind
    have := hwf _ hmem
    omega

lemma IR.WF_createNode {g : IR} (n : IRNode) (hwf : g.WF) :
    (g.CreateNode n).1.WF := by
  intro p hp
  rw [IR.CreateNode] at hp ⊢
  simp only [List.mem_append, List.mem_singleton] at hp
  rcases hp with hp | hp
  · have := hwf _ hp
    simp only
    omega
  · rw [hp]
    simp

lemma IR.createNode_find_self {g : IR} (n : IRNode) (hwf : g.WF) :
    (g.CreateNode n).1.find g.next_id = some n := by
  have hnone : assocFind g.next_id g.nodes = none := IR.find_none_of_le hwf le_rfl
  rw [IR.CreateNode, IR.find]
  simp only
  rw [assocFind_append_none hnone, assocFind, if_pos rfl]

lemma IR.createNode_find_old {g : IR} {k : Nat} {v : IRNode} (n : IRNode)
    (h : g.find k = some v) : (g.CreateNode n).1.find k = some v := by
  rw [IR.CreateNode, IR.find]
  exact assocFind_append_some h

lemma IR.deleteNode_ok {g : IR} {id : Nat} {g' : IR}
    (h : g.DeleteNode id = .ok g') :
    g'.nodes = g.nodes.filter (fun p => decide (p.1 ≠ id)) ∧
      g'.next_id = g.next_id := by
  rw [IR.DeleteNode] at h
  rcases hf : assocFind id g.nodes with _ | n
  · rw [hf] at h; cases h
  · rw [hf] at h
    by_cases hc : IR.HasConsumers g id
    · rw [if_pos hc] at h; cases h
    · rw [if_neg hc] at h
      cases h
      exact ⟨rfl, rfl⟩

/-- A fresh compile: the state right after ASTVisitorImpl::Create built the
visitor and ran InitGlobals, before any user statement is evaluated
(SetupModules touches only the module handler, not the variable table or
the arena). -/
def freshGlobals : EvalState := InitGlobals ⟨emptyIR, emptyVarTable⟩

/-- Claim C4: after a fresh compile and before any user statement, the root
scope defines bool, int, float and string as Type objects, None as the unit
object, and True and False as Expr objects wrapping Bool literal IR nodes
already materialized in the arena. -/
theorem initGlobals_defines_builtins :
    freshGlobals.table.Lookup kBoolTypeName = some (.typeObject .BOOLEAN) ∧
    freshGlobals.table.Lookup kIntTypeName = some (.typeObject .INT64) ∧
    freshGlobals.table.Lookup kFloatTypeName = some (.typeObject .FLOAT64) ∧
    freshGlobals.table.Lookup kStringTypeName = some (.typeObject .STRING) ∧
    freshGlobals.table.Lookup kNoneName = some .noneObject ∧
    freshGlobals.table.Lookup kTrueName = some (.expr 0) ∧
    freshGlobals.graph.find 0 = some (.boolIR true) ∧
    freshGlobals.table.Lookup kFalseName = some (.expr 1) ∧
    freshGlobals.graph.find 1 = some (.boolIR false) :=
  ⟨rfl, rfl, rfl, rfl, rfl, rfl, rfl, rfl, rfl⟩

/-- Claim C6: a unary operator symbol absent from the unary-operator table
makes GetUnaryOp return the "Unary Operator not handled" error rather than
an opcode. -/
theorem getUnaryOp_unhandled_is_error (op : String)
    (h : opFind op unary_op_map = none) :
    GetUnaryOp op = .error ("Unary Operator " ++ sq ++ op ++ sq ++ " not handled") := by
  rw [GetUnaryOp, h]

/-- Witness for C6 at the concrete symbol "*", which the unary table lacks. -/
theorem getUnaryOp_unhandled_is_error_witness :
    GetUnaryOp "*" = .error ("Unary Operator " ++ sq ++ "*" ++ sq ++ " not handled") :=
  getUnaryOp_unhandled_is_error "*" rfl

/-- Claim C10: a suite with an empty statement list is the "No runnable code
found" error, both as a module suite and as a function-definition body. -/
theorem emptySuite_is_error :
    ∀ (is_function_definition_body : Bool) (s : EvalState),
      ProcessASTSuite [] is_function_definition_body s =
        .error "No runnable code found" :=
  fun _ _ => rfl

/-- Claim C9: an exec-entry descriptor with an empty func_name, or an empty
output_table_prefix, makes ProcessExecFuncs fail up front: the error is the
same for every variable table and every call-oracle behavior, so no function
is looked up or called. -/
theorem execFuncs_missing_name_or_output_errors (f : FuncToExecute)
    (rest : List FuncToExecute)
    (h : f.func_name = "" ∨ (f.func_name ≠ "" ∧ f.output_table_pfx = "")) :
    ∀ (call : CallOracle) (atob : String → Option Bool) (atoi : String → Option Int)
      (atod : String → Option Rat) (s : EvalState),
      ProcessExecFuncs call atob atoi atod (f :: rest) s =
        .error (if f.func_name = "" then "Must specify func_name for each FuncToExecute."
          else "Output_table_prefix must be specified for function " ++ f.func_name ++ ".") := by
  intro call atob atoi atod s
  rcases h with h | ⟨hne, hpe⟩
  · rw [ProcessExecFuncs, ProcessExecFunc, if_pos h, if_pos h]
  · rw [ProcessExecFuncs, ProcessExecFunc, if_neg hne, if_pos hpe, if_neg hne]

/-- Witness for C9: a descriptor with empty func_name fails identically under
an arbitrary concrete call oracle and scope. -/
theorem execFuncs_missing_name_or_output_errors_witness :
    ProcessExecFuncs (fun _ _ t => .ok (.noneObject, t)) (fun _ => none)
      (fun _ => none) (fun _ => none)
      [⟨"", "out", []⟩] ⟨emptyIR, emptyVarTable⟩ =
      .error (if ("" : String) = "" then "Must specify func_name for each FuncToExecute."
        else "Output_table_prefix must be specified for function " ++ "" ++ ".") :=
  execFuncs_missing_name_or_output_errors ⟨"", "out", []⟩ [] (Or.inl rfl)
    (fun _ _ t => .ok (.noneObject, t)) (fun _ => none) (fun _ => none) (fun _ => none)
    ⟨emptyIR, emptyVarTable⟩

/-- Claim C5: when the unary operator maps to the no-op opcode (unary +),
evaluation returns an Expr wrapping the operand's existing IR node and the
state is exactly the post-operand state: no IR node is created for the
operation. -/
theorem unaryOp_noop_is_identity (operandD : ProcessOracle) (op_str : String)
    (op_context : OperatorContext) (s : EvalState) (obj : QLObject)
    (s₁ : EvalState) (nid : Nat) (n : IRNode) (op : FuncOp)
    (hoper : operandD op_context s = .ok (obj, s₁))
    (hnode : obj.nodeId = some nid)
    (hfind : s₁.graph.find nid = some n)
    (hexpr : n.isExpression = true)
    (hop : GetUnaryOp op_str = .ok op)
    (hnoop : op.op_code = .non_op) :
    ProcessDataUnaryOp operandD op_str op_context s = .ok (.expr nid, s₁) := by
  simp only [ProcessDataUnaryOp, hoper, GetArgAsExpr, hnode, hfind, hexpr,
    if_true, hop, hnoop, if_pos]

/-- Witness for C5: evaluating unary + over an operand bound to an Int
literal passes the literal node through with no arena change. -/
theorem unaryOp_noop_is_identity_witness :
    ProcessDataUnaryOp (fun _ t => .ok (.expr 0, t)) "+" ⟨[], "", []⟩
      ⟨⟨[(0, .intIR 3)], 1⟩, emptyVarTable⟩ =
      .ok (.expr 0, ⟨⟨[(0, .intIR 3)], 1⟩, emptyVarTable⟩) :=
  unaryOp_noop_is_identity (fun _ t => .ok (.expr 0, t)) "+" ⟨[], "", []⟩
    ⟨⟨[(0, .intIR 3)], 1⟩, emptyVarTable⟩ (.expr 0)
    ⟨⟨[(0, .intIR 3)], 1⟩, emptyVarTable⟩ 0 (.intIR 3) ⟨.non_op, ""⟩
    rfl rfl rfl rfl rfl rfl

/-- Claim C7: when the attribute-assignment target evaluates to an object
that is not a Dataframe, the right-hand side is evaluated generically
(whatever expression form it has — the source's pointer cast to a Call node
does not change which node Process receives or how it dispatches) and
AssignAttribute is dispatched on the target with the evaluated result. -/
theorem attributeAssignment_non_dataframe_dispatches
    (processValue : EvalState → Except String (QLObject × EvalState))
    (processAttr : EvalState → Except String (QLObject × EvalState))
    (rhs : ProcessOracle)
    (assignAttribute : QLObject → String → QLObject → EvalState → Except String EvalState)
    (aname : String) (attr_value : AstExprKind) (s : EvalState)
    (target : QLObject) (s₁ : EvalState) (value : QLObject) (s₂ : EvalState)
    (hval : processValue s = .ok (target, s₁))
    (hnd : target.qlType ≠ .kDataframe)
    (hrhs : rhs ⟨[], "", []⟩ s₁ = .ok (value, s₂)) :
    ProcessAttributeAssignment processValue processAttr rhs assignAttribute
      (.nameE aname) attr_value s = assignAttribute target aname value s₂ := by
  simp only [ProcessAttributeAssignment, hval, if_pos hnd, GetAttributeStr, hrhs]

/-- Witness for C7: assigning an attribute on a None target dispatches the
evaluated RHS into the assign oracle. -/
theorem attributeAssignment_non_dataframe_dispatches_witness :
    ProcessAttributeAssignment (fun t => .ok (.noneObject, t))
      (fun t => .ok (.noneObject, t)) (fun _ t => .ok (.expr 7, t))
      (fun _ a _ t => .ok ⟨t.graph, t.table.Add a .noneObject⟩)
      (.nameE "foo") .subscriptE ⟨emptyIR, emptyVarTable⟩ =
      .ok ⟨emptyIR, VarTable.Add emptyVarTable "foo" .noneObject⟩ :=
  attributeAssignment_non_dataframe_dispatches (fun t => .ok (.noneObject, t))
    (fun t => .ok (.noneObject, t)) (fun _ t => .ok (.expr 7, t))
    (fun _ a _ t => .ok ⟨t.graph, t.table.Add a .noneObject⟩)
    "foo" .subscriptE ⟨emptyIR, emptyVarTable⟩ .noneObject ⟨emptyIR, emptyVarTable⟩
    (.expr 7) ⟨emptyIR, emptyVarTable⟩ rfl (by decide) rfl

/-- Claim C8: a Compare node whose operator and comparator lists have the
parser's shape (equal lengths) is rejected with an error unless it has
exactly one operator and one comparator; chained comparisons are refused.
(The source DCHECKs the operator count and then tests the comparator count;
with the parser invariant the two counts agree.) -/
theorem compare_rejects_chained (operators : List String)
    (leftD : EvalState → Except String (QLObject × EvalState))
    (comps : List (EvalState → Except String (QLObject × EvalState)))
    (s : EvalState)
    (hlen : operators.length = comps.length)
    (hchain : ¬(operators.length = 1 ∧ comps.length = 1)) :
    ProcessDataCompare operators leftD comps s =
      .error ("Only expected one argument to the right of " ++ sq
        ++ operators.headD "" ++ sq ++ ".") := by
  have hc : comps.length ≠ 1 := by
    intro h1
    exact hchain ⟨hlen.trans h1, h1⟩
  rw [ProcessDataCompare, if_pos hc]

/-- Witness for C8: the chained comparison shape a < b < c (two operators,
two comparators) is rejected. -/
theorem compare_rejects_chained_witness :
    ProcessDataCompare ["<", "<"] (fun t => .ok (.noneObject, t))
      [fun t => .ok (.noneObject, t), fun t => .ok (.noneObject, t)]
      ⟨emptyIR, emptyVarTable⟩ =
      .error ("Only expected one argument to the right of " ++ sq
        ++ (["<", "<"] : List String).headD "" ++ sq ++ ".") :=
  compare_rejects_chained ["<", "<"] (fun t => .ok (.noneObject, t))
    [fun t => .ok (.noneObject, t), fun t => .ok (.noneObject, t)]
    ⟨emptyIR, emptyVarTable⟩ rfl (by intro h; cases h.1)

lemma GetArgAsColumn_ok {s : EvalState} {obj : QLObject} {d : String}
    {nid : Nat} {cname : String}
    (h : GetArgAsColumn s obj d = .ok (nid, cname)) :
    obj.nodeId = some nid ∧ s.graph.find nid = some (.columnIR cname) := by
  unfold GetArgAsColumn at h
  rcases hn : obj.nodeId with _ | nid'
  · simp only [hn] at h
    exact Except.noConfusion h
  · simp only [hn] at h
    rcases hf : s.graph.find nid' with _ | n
    · simp only [hf] at h
      exact Except.noConfusion h
    · simp only [hf] at h
      cases n with
      | columnIR cn =>
        simp only [Except.ok.injEq, Prod.mk.injEq] at h
        refine ⟨by rw [h.1], ?_⟩
        rw [← h.1, hf, h.2]
      | boolIR b => simp at h
      | intIR x => simp at h
      | floatIR x => simp at h
      | stringIR x => simp at h
      | timeIR x => simp at h
      | funcIR o a => simp at h
      | mapIR p c e => simp at h
      | memorySinkIR p nm c => simp at h
      | operatorIR k p => simp at h

/-- Claim C1: a successful subscript map-assignment on a bare Name bound to
a Dataframe rebinds the source variable name to a new Dataframe — a Map
produced by column assignment over the original Dataframe's operator — and
deletes the column-reference IR node that evaluating the subscript LHS had
produced, so that node no longer exists in the arena.  The RHS evaluation is
an arbitrary oracle that allocates fresh ids and preserves arena
well-formedness, as ASTVisitorImpl::Process does. -/
theorem mapAssignment_rebinds_and_deletes_column (rhs : ProcessOracle)
    (v : String) (pdfOp : Option Nat) (target : QLObject) (s s' : EvalState)
    (hwf : s.graph.WF)
    (hmono : ∀ ctx t o t', rhs ctx t = .ok (o, t') →
      t.graph.next_id ≤ t'.graph.next_id ∧ (t.graph.WF → t'.graph.WF))
    (h : ProcessMapAssignment rhs (.nameE v) pdfOp target s = .ok s') :
    ∃ parentOp colId colName exprId mid,
      pdfOp = some parentOp ∧
      target.nodeId = some colId ∧
      s.graph.find colId = some (.columnIR colName) ∧
      s.graph.find mid = none ∧
      s'.table.Lookup v = some (.dataframe (some mid)) ∧
      s'.graph.find mid = some (.mapIR parentOp colName exprId) ∧
      s'.graph.find colId = none := by
  simp only [ProcessMapAssignment] at h
  rcases hcol : GetArgAsColumn s target "assignment value" with e | pr
  · simp only [hcol] at h
    exact Except.noConfusion h
  · simp only [hcol] at h
    rcases pr with ⟨colId, colName⟩
    obtain ⟨hnodeId, hfindcol⟩ := GetArgAsColumn_ok hcol
    rcases pdfOp with _ | parentOp
    · simp at h
    · simp only at h
      rcases hrhs : rhs ⟨[parentOp], Dataframe_kMapOpId, [v]⟩ s with e | pr2
      · simp only [hrhs] at h
        exact Except.noConfusion h
      · simp only [hrhs] at h
        rcases pr2 with ⟨expr_obj, s₁⟩
        obtain ⟨hle, hwfimp⟩ := hmono _ _ _ _ hrhs
        have hwf1 : s₁.graph.WF := hwfimp hwf
        rcases hexp : GetArgAsExpr s₁ expr_obj "assignment value" with e | exprId
        · simp only [hexp] at h
          exact Except.noConfusion h
        · simp only [hexp] at h
          simp only [FromColumnAssignment] at h
          rcases hdel : IR.DeleteNode (s₁.graph.CreateNode
              (.mapIR parentOp colName exprId)).1 colId with e | g₃
          · simp only [hdel] at h
            exact Except.noConfusion h
          · simp only [hdel] at h
            simp only [Except.ok.injEq] at h
            obtain ⟨hnodes, hnext⟩ := IR.deleteNode_ok hdel
            have hcollt : colId < s.graph.next_id := hwf _ (assocFind_mem hfindcol)
            have hmidle : s.graph.next_id ≤ s₁.graph.next_id := hle
            have hne : s₁.graph.next_id ≠ colId := by omega
            refine ⟨parentOp, colId, colName, exprId, s₁.graph.next_id, rfl,
              hnodeId, hfindcol, IR.find_none_of_le hwf hmidle, ?_, ?_, ?_⟩
            · rw [← h]
              simp [VarTable.Lookup, VarTable.Add, lookupStr, IR.CreateNode]
            · rw [← h]
              show g₃.find s₁.graph.next_id = _
              rw [IR.find, hnodes, assocFind_filter_ne hne]
              exact IR.createNode_find_self _ hwf1
            · rw [← h]
              show g₃.find colId = none
              rw [IR.find, hnodes, assocFind_filter_self]

/-- The concrete RHS denotation for the C1 witness: returns the existing Int
literal and leaves the state unchanged. -/
def c1Rhs : ProcessOracle := fun _ t => .ok (.expr 1, t)

/-- The concrete starting state for the C1 witness: a column reference (the
evaluated subscript LHS), an Int literal, and a source operator. -/
def c1State : EvalState :=
  ⟨⟨[(0, .columnIR "b"), (1, .intIR 3), (2, .operatorIR "memory_source" [])], 3⟩, ⟨[]⟩⟩

/-- The state after the C1 witness assignment: the column node is gone, the
Map node exists, and df is rebound to the new Dataframe. -/
def c1Result : EvalState :=
  ⟨⟨[(1, .intIR 3), (2, .operatorIR "memory_source" []), (3, .mapIR 2 "b" 1)], 4⟩,
    ⟨[("df", .dataframe (some 3))]⟩⟩

/-- Witness for C1 at the concrete assignment df["b"] = 3. -/
theorem mapAssignment_rebinds_and_deletes_column_witness :
    ∃ parentOp colId colName exprId mid,
      (some 2 : Option Nat) = some parentOp ∧
      (QLObject.expr 0).nodeId = some colId ∧
      c1State.graph.find colId = some (.columnIR colName) ∧
      c1State.graph.find mid = none ∧
      c1Result.table.Lookup "df" = some (.dataframe (some mid)) ∧
      c1Result.graph.find mid = some (.mapIR parentOp colName exprId) ∧
      c1Result.graph.find colId = none :=
  mapAssignment_rebinds_and_deletes_column c1Rhs "df" (some 2) (.expr 0)
    c1State c1Result (by unfold IR.WF; decide)
    (by
      intro ctx t o t' hh
      cases hh
      exact ⟨le_rfl, fun w => w⟩)
    rfl

/-- Whether an Except result is a success. -/
def isOkB {α : Type} : Except String α → Bool
  | .ok _ => true
  | .error _ => false

/-- The sinks the collection arm of the exec-entry return-wiring is specified
to create: element i becomes a MemorySink named "prefix[i]" over the
element's operator, ids counting up from `base`. -/
def expectedSinks (base : Nat) (tablePfx : String) (i : Nat) :
    List QLObject → List (Nat × IRNode)
  | [] => []
  | x :: rest =>
    (base, .memorySinkIR x.dfOp (tablePfx ++ "[" ++ toString i ++ "]") []) ::
      expectedSinks (base + 1) tablePfx (i + 1) rest

lemma execSinkLoop_all_df (fname tablePfx : String) :
    ∀ (xs : List QLObject) (i : Nat) (g : IR),
      (∀ x ∈ xs, ∃ op, x = QLObject.dataframe op) →
      ProcessExecSinkLoop fname tablePfx xs i g =
        .ok ⟨g.nodes ++ expectedSinks g.next_id tablePfx i xs,
          g.next_id + xs.length⟩ := by
  intro xs
  induction xs with
  | nil =>
    intro i g hall
    simp [ProcessExecSinkLoop, expectedSinks]
  | cons x rest ih =>
    intro i g hall
    obtain ⟨op, hx⟩ := hall x (List.mem_cons_self _ _)
    subst hx
    simp only [ProcessExecSinkLoop]
    rw [ih (i + 1) _ (fun y hy => hall y (List.mem_cons_of_mem _ hy))]
    simp only [IR.CreateNode, expectedSinks, QLObject.dfOp, Except.ok.injEq,
      IR.mk.injEq]
    constructor
    · rw [List.append_assoc]
      rfl
    · simp only [List.length_cons]
      omega

lemma execSinkLoop_bad (fname tablePfx : String) :
    ∀ (xs : List QLObject) (i : Nat) (g : IR),
      (∃ x ∈ xs, ∀ op, x ≠ QLObject.dataframe op) →
      ∃ m, ProcessExecSinkLoop fname tablePfx xs i g = .error m := by
  intro xs
  induction xs with
  | nil =>
    intro i g hbad
    obtain ⟨x, hx, _⟩ := hbad
    cases hx
  | cons x rest ih =>
    intro i g hbad
    obtain ⟨y, hy, hb⟩ := hbad
    cases x with
    | dataframe op =>
      rcases List.mem_cons.mp hy with h | h
      · exact absurd h (hb op)
      · simp only [ProcessExecSinkLoop]
        exact ih (i + 1) _ ⟨y, h, hb⟩
    | expr nid => exact ⟨_, rfl⟩
    | typeObject dt => exact ⟨_, rfl⟩
    | noneObject => exact ⟨_, rfl⟩
    | funcObject fd => exact ⟨_, rfl⟩
    | listObject ys => exact ⟨_, rfl⟩
    | tupleObject ys => exact ⟨_, rfl⟩
    | moduleObject nm => exact ⟨_, rfl⟩

/-- Claim C2: once an exec-entry descriptor has passed validation, lookup,
argument coercion and the call, the return value is wired to sinks: a single
Dataframe return creates exactly one MemorySink named by the descriptor's
output table prefix over that Dataframe's operator; a Collection return
creates one MemorySink named "prefix[i]" per element in order; a return that
is neither, or a collection element that is not a Dataframe, is an error. -/
theorem execFunc_sink_wiring (call : CallOracle) (atob : String → Option Bool)
    (atoi : String → Option Int) (atod : String → Option Rat)
    (f : FuncToExecute) (s : EvalState) (fd : FuncData) (argmap : ArgMap)
    (g₁ : IR) (ret : QLObject) (s₂ : EvalState)
    (hname : f.func_name ≠ "") (hpfx : f.output_table_pfx ≠ "")
    (hlook : s.table.Lookup f.func_name = some (.funcObject fd))
    (hargs : ProcessExecFuncArgs atob atoi atod fd f.arg_values s.graph =
      .ok (argmap, g₁))
    (hcall : call f.func_name argmap ⟨g₁, s.table⟩ = .ok (ret, s₂)) :
    (∀ op, ret = .dataframe op →
      ProcessExecFunc call atob atoi atod f s =
        .ok ⟨(s₂.graph.CreateNode (.memorySinkIR op f.output_table_pfx [])).1,
          s₂.table⟩)
    ∧ (∀ xs, (ret = .listObject xs ∨ ret = .tupleObject xs) →
        ((∀ x ∈ xs, ∃ op, x = QLObject.dataframe op) →
          ProcessExecFunc call atob atoi atod f s =
            .ok ⟨⟨s₂.graph.nodes ++
                expectedSinks s₂.graph.next_id f.output_table_pfx 0 xs,
              s₂.graph.next_id + xs.length⟩, s₂.table⟩)
        ∧ ((∃ x ∈ xs, ∀ op, x ≠ QLObject.dataframe op) →
          ∃ m, ProcessExecFunc call atob atoi atod f s = .error m))
    ∧ (CollectionIsCollection ret = false → (∀ op, ret ≠ .dataframe op) →
        ∃ m, ProcessExecFunc call atob atoi atod f s = .error m) := by
  have h0 : ProcessExecFunc call atob atoi atod f s =
      ProcessExecReturns f.func_name f.output_table_pfx ret s₂ := by
    unfold ProcessExecFunc
    rw [if_neg hname, if_neg hpfx]
    simp only [hlook, hargs, hcall]
  refine ⟨?_, ?_, ?_⟩
  · intro op hret
    subst hret
    rw [h0]
    rfl
  · intro xs hxs
    constructor
    · intro hall
      rw [h0]
      have hloop := execSinkLoop_all_df f.func_name f.output_table_pfx xs 0
        s₂.graph hall
      rcases hxs with h | h
      · subst h
        simp only [ProcessExecReturns, CollectionIsCollection, QLObject.items]
        rw [hloop]
        rfl
      · subst h
        simp only [ProcessExecReturns, CollectionIsCollection, QLObject.items]
        rw [hloop]
        rfl
    · intro hbad
      rw [h0]
      obtain ⟨m, hm⟩ := execSinkLoop_bad f.func_name f.output_table_pfx xs 0
        s₂.graph hbad
      rcases hxs with h | h
      · subst h
        refine ⟨m, ?_⟩
        simp only [ProcessExecReturns, CollectionIsCollection, QLObject.items]
        rw [hm]
        rfl
      · subst h
        refine ⟨m, ?_⟩
        simp only [ProcessExecReturns, CollectionIsCollection, QLObject.items]
        rw [hm]
        rfl
  · intro hncol hndf
    rw [h0]
    cases ret with
    | dataframe op => exact absurd rfl (hndf op)
    | listObject ys => simp [CollectionIsCollection] at hncol
    | tupleObject ys => simp [CollectionIsCollection] at hncol
    | expr nid => exact ⟨_, rfl⟩
    | typeObject dt => exact ⟨_, rfl⟩
    | noneObject => exact ⟨_, rfl⟩
    | funcObject fd₂ => exact ⟨_, rfl⟩
    | moduleObject nm => exact ⟨_, rfl⟩

/-- The concrete call oracle for the C2 witness: every call returns the
Dataframe over operator 0 with the state unchanged. -/
def c2Call : CallOracle := fun _ _ t => .ok (.dataframe (some 0), t)

/-- The starting state for the C2 witness: one source operator in the arena
and the function f1 bound in scope. -/
def c2State : EvalState :=
  ⟨⟨[(0, .operatorIR "memory_source" [])], 1⟩,
    ⟨[("f1", .funcObject ⟨"f1", [], []⟩)]⟩⟩

/-- The exec descriptor for the C2 witness. -/
def c2Func : FuncToExecute := ⟨"f1", "out", []⟩

def c2Atob : String → Option Bool := fun _ => none

def c2Atoi : String → Option Int := fun _ => none

def c2Atod : String → Option Rat := fun _ => none

/-- Witness for C2: executing f1, which returns a single Dataframe, creates
exactly one MemorySink named "out" over that Dataframe's operator. -/
theorem execFunc_sink_wiring_witness :
    ProcessExecFunc c2Call c2Atob c2Atoi c2Atod c2Func c2State =
      .ok ⟨(c2State.graph.CreateNode
          (.memorySinkIR (some 0) c2Func.output_table_pfx [])).1,
        c2State.table⟩ :=
  (execFunc_sink_wiring c2Call c2Atob c2Atoi c2Atod c2Func c2State
    ⟨"f1", [], []⟩ ⟨[], []⟩ c2State.graph (.dataframe (some 0)) c2State
    (by decide) (by decide) rfl rfl rfl).1 (some 0) rfl

/-- The literal node that coercing a string under a data-type annotation is
specified to produce: bool/int/float through the permissive parsers, string
verbatim, time and duration as integer nanoseconds, UInt128 (and a
non-concrete type) never. -/
def coerceLit (atob : String → Option Bool) (atoi : String → Option Int)
    (atod : String → Option Rat) (dt : DataType) (v : String) : Option IRNode :=
  match dt with
  | .BOOLEAN => (atob v).map IRNode.boolIR
  | .STRING => some (.stringIR v)
  | .INT64 => (atoi v).map IRNode.intIR
  | .FLOAT64 => (atod v).map IRNode.floatIR
  | .DURATION64NS => (atoi v).map IRNode.timeIR
  | .TIME64NS => (atoi v).map IRNode.timeIR
  | .UINT128 => none
  | .UNKNOWN => none

lemma parseStringAsType_ok {atob : String → Option Bool} {atoi : String → Option Int}
    {atod : String → Option Rat} (g : IR) {v : String} {dt : DataType} {n : IRNode}
    (h : coerceLit atob atoi atod dt v = some n) :
    ParseStringAsType atob atoi atod g v dt =
      .ok (.expr g.next_id, (g.CreateNode n).1) := by
  cases dt with
  | BOOLEAN =>
    simp only [coerceLit] at h
    rcases hb : atob v with _ | b
    · rw [hb] at h; cases h
    · rw [hb, Option.map_some'] at h
      cases h
      simp [ParseStringAsType, hb, IR.CreateNode]
  | STRING =>
    simp only [coerceLit, Option.some.injEq] at h
    subst h
    simp [ParseStringAsType, IR.CreateNode]
  | INT64 =>
    simp only [coerceLit] at h
    rcases hb : atoi v with _ | x
    · rw [hb] at h; cases h
    · rw [hb, Option.map_some'] at h
      cases h
      simp [ParseStringAsType, hb, IR.CreateNode]
  | FLOAT64 =>
    simp only [coerceLit] at h
    rcases hb : atod v with _ | x
    · rw [hb] at h; cases h
    · rw [hb, Option.map_some'] at h
      cases h
      simp [ParseStringAsType, hb, IR.CreateNode]
  | DURATION64NS =>
    simp only [coerceLit] at h
    rcases hb : atoi v with _ | x
    · rw [hb] at h; cases h
    · rw [hb, Option.map_some'] at h
      cases h
      simp [ParseStringAsType, hb, IR.CreateNode]
  | TIME64NS =>
    simp only [coerceLit] at h
    rcases hb : atoi v with _ | x
    · rw [hb] at h; cases h
    · rw [hb, Option.map_some'] at h
      cases h
      simp [ParseStringAsType, hb, IR.CreateNode]
  | UINT128 => cases h
  | UNKNOWN => cases h

lemma parseStringAsType_err {atob : String → Option Bool} {atoi : String → Option Int}
    {atod : String → Option Rat} (g : IR) {v : String} {dt : DataType}
    (h : coerceLit atob atoi atod dt v = none) :
    ∃ m, ParseStringAsType atob atoi atod g v dt = .error m := by
  cases dt with
  | BOOLEAN =>
    simp only [coerceLit] at h
    rcases hb : atob v with _ | b
    · exact ⟨"Failed to parse arg with value " ++ sq ++ v ++ sq ++ " as bool.",
        by simp [ParseStringAsType, hb]⟩
    · rw [hb, Option.map_some'] at h; cases h
  | STRING =>
    simp only [coerceLit] at h
    cases h
  | INT64 =>
    simp only [coerceLit] at h
    rcases hb : atoi v with _ | x
    · exact ⟨"Failed to parse arg with value " ++ sq ++ v ++ sq ++ " as int64.",
        by simp [ParseStringAsType, hb]⟩
    · rw [hb, Option.map_some'] at h; cases h
  | FLOAT64 =>
    simp only [coerceLit] at h
    rcases hb : atod v with _ | x
    · exact ⟨"Failed to parse arg with value " ++ sq ++ v ++ sq ++ " as float64.",
        by simp [ParseStringAsType, hb]⟩
    · rw [hb, Option.map_some'] at h; cases h
  | DURATION64NS =>
    simp only [coerceLit] at h
    rcases hb : atoi v with _ | x
    · exact ⟨"Failed to parse arg with value " ++ sq ++ v ++ sq ++ " as time.",
        by simp [ParseStringAsType, hb]⟩
    · rw [hb, Option.map_some'] at h; cases h
  | TIME64NS =>
    simp only [coerceLit] at h
    rcases hb : atoi v with _ | x
    · exact ⟨"Failed to parse arg with value " ++ sq ++ v ++ sq ++ " as time.",
        by simp [ParseStringAsType, hb]⟩
    · rw [hb, Option.map_some'] at h; cases h
  | UINT128 => exact ⟨_, rfl⟩
  | UNKNOWN => exact ⟨_, rfl⟩

/-- The per-argument condition under which exec-arg processing can accept an
argument descriptor. -/
def argAccepted (atob : String → Option Bool) (atoi : String → Option Int)
    (atod : String → Option Rat) (fd : FuncData) (a : ArgValue) : Prop :=
  containsStr a.name fd.arguments = true ∧
    ∃ dt, lookupType a.name fd.argTypes = some dt ∧
      (coerceLit atob atoi atod dt a.value).isSome = true

/-- The relation between an argument descriptor and the keyword entry built
for it: same name, an Expr object over a node holding the coerced literal. -/
def kwargBuilt (atob : String → Option Bool) (atoi : String → Option Int)
    (atod : String → Option Rat) (fd : FuncData) (g' : IR) (a : ArgValue)
    (p : String × QLObject) : Prop :=
  p.1 = a.name ∧ ∃ nid dt, p.2 = .expr nid ∧
    lookupType a.name fd.argTypes = some dt ∧
    g'.find nid = coerceLit atob atoi atod dt a.value

lemma execFuncArgsLoop_spec (atob : String → Option Bool)
    (atoi : String → Option Int) (atod : String → Option Rat) (fd : FuncData) :
    ∀ (args : List ArgValue) (g : IR) (acc : List (String × QLObject)),
      g.WF →
      ((isOkB (ProcessExecFuncArgsLoop atob atoi atod fd args g acc) = true) ↔
        ∀ a ∈ args, argAccepted atob atoi atod fd a)
      ∧ ∀ kws g',
          ProcessExecFuncArgsLoop atob atoi atod fd args g acc = .ok (kws, g') →
          g'.WF ∧ (∀ k n, g.find k = some n → g'.find k = some n) ∧
          ∃ newkws, kws = acc ++ newkws ∧
            List.Forall₂ (kwargBuilt atob atoi atod fd g') args newkws := by
  intro args
  induction args with
  | nil =>
    intro g acc hwf
    constructor
    · simp [ProcessExecFuncArgsLoop, isOkB]
    · intro kws g' h
      simp only [ProcessExecFuncArgsLoop, Except.ok.injEq, Prod.mk.injEq] at h
      refine ⟨h.2 ▸ hwf, fun k n hk => h.2 ▸ hk, [], ?_, List.Forall₂.nil⟩
      rw [List.append_nil]
      exact h.1.symm
  | cons a rest ih =>
    intro g acc hwf
    rcases hcb : containsStr a.name fd.arguments with _ | _
    · have hl : ProcessExecFuncArgsLoop atob atoi atod fd (a :: rest) g acc =
          .error ("Function " ++ sq ++ fd.name ++ sq
            ++ " does not have an argument called " ++ sq ++ a.name ++ sq) := by
        simp [ProcessExecFuncArgsLoop, hcb]
      constructor
      · rw [hl]
        constructor
        · intro hh; simp [isOkB] at hh
        · intro hall
          have := (hall a (List.mem_cons_self _ _)).1
          rw [hcb] at this
          cases this
      · intro kws g' hh
        rw [hl] at hh
        exact Except.noConfusion hh
    · rcases hlt : lookupType a.name fd.argTypes with _ | dt
      · have hl : ProcessExecFuncArgsLoop atob atoi atod fd (a :: rest) g acc =
            .error ("Arg type annotation required. Function: " ++ sq ++ fd.name
              ++ sq ++ ", arg: " ++ sq ++ a.name ++ sq) := by
          simp [ProcessExecFuncArgsLoop, hcb, hlt]
        constructor
        · rw [hl]
          constructor
          · intro hh; simp [isOkB] at hh
          · intro hall
            obtain ⟨dt', hdt', _⟩ := (hall a (List.mem_cons_self _ _)).2
            rw [hlt] at hdt'
            cases hdt'
        · intro kws g' hh
          rw [hl] at hh
          exact Except.noConfusion hh
      · rcases hcl : coerceLit atob atoi atod dt a.value with _ | n
        · obtain ⟨m, hm⟩ := @parseStringAsType_err atob atoi atod g a.value dt hcl
          have hl : ProcessExecFuncArgsLoop atob atoi atod fd (a :: rest) g acc =
              .error m := by
            simp [ProcessExecFuncArgsLoop, hcb, hlt, hm]
          constructor
          · rw [hl]
            constructor
            · intro hh; simp [isOkB] at hh
            · intro hall
              obtain ⟨dt', hdt', hsome⟩ := (hall a (List.mem_cons_self _ _)).2
              rw [hlt, Option.some.injEq] at hdt'
              rw [← hdt', hcl] at hsome
              cases hsome
          · intro kws g' hh
            rw [hl] at hh
            exact Except.noConfusion hh
        · have hp := @parseStringAsType_ok atob atoi atod g a.value dt n hcl
          have hl : ProcessExecFuncArgsLoop atob atoi atod fd (a :: rest) g acc =
              ProcessExecFuncArgsLoop atob atoi atod fd rest (g.CreateNode n).1
                (acc ++ [(a.name, .expr g.next_id)]) := by
            simp [ProcessExecFuncArgsLoop, hcb, hlt, hp]
          have hwf1 : (g.CreateNode n).1.WF := IR.WF_createNode n hwf
          obtain ⟨ih1, ih2⟩ := ih (g.CreateNode n).1
            (acc ++ [(a.name, .expr g.next_id)]) hwf1
          constructor
          · rw [hl, ih1]
            constructor
            · intro hrest a' ha'
              rcases List.mem_cons.mp ha' with h | h
              · subst h
                exact ⟨hcb, dt, hlt, by rw [hcl]; rfl⟩
              · exact hrest a' h
            · intro hall a' ha'
              exact hall a' (List.mem_cons_of_mem _ ha')
          · intro kws g' hh
            rw [hl] at hh
            obtain ⟨hwf', hmono', newkws, hkws, hforall⟩ := ih2 kws g' hh
            refine ⟨hwf', ?_, (a.name, .expr g.next_id) :: newkws, ?_, ?_⟩
            · intro k nn hk
              exact hmono' k nn (IR.createNode_find_old n hk)
            · rw [hkws, List.append_assoc]
              rfl
            · refine List.Forall₂.cons ⟨rfl, g.next_id, dt, rfl, hlt, ?_⟩ hforall
              rw [hcl]
              exact hmono' _ _ (IR.createNode_find_self n hwf)

/-- Claim C3: an exec-entry argument descriptor is accepted exactly when it
names a declared parameter that carries a type annotation and its string
value coerces to that annotation's data type (UInt128 never coerces); on
success each argument becomes a keyword argument holding an Expr over the
coerced literal node, in order. -/
theorem execFuncArgs_coercion (atob : String → Option Bool)
    (atoi : String → Option Int) (atod : String → Option Rat) (fd : FuncData)
    (args : List ArgValue) (g : IR) (hwf : g.WF) :
    ((isOkB (ProcessExecFuncArgs atob atoi atod fd args g) = true) ↔
      ∀ a ∈ args, argAccepted atob atoi atod fd a)
    ∧ ∀ am g', ProcessExecFuncArgs atob atoi atod fd args g = .ok (am, g') →
        am.args = [] ∧
        List.Forall₂ (kwargBuilt atob atoi atod fd g') args am.kwargs := by
  obtain ⟨h1, h2⟩ := execFuncArgsLoop_spec atob atoi atod fd args g [] hwf
  constructor
  · rw [← h1]
    rcases hres : ProcessExecFuncArgsLoop atob atoi atod fd args g [] with e | pr
    · simp [ProcessExecFuncArgs, hres, isOkB]
    · simp [ProcessExecFuncArgs, hres, isOkB]
  · intro am g' hh
    unfold ProcessExecFuncArgs at hh
    rcases hres : ProcessExecFuncArgsLoop atob atoi atod fd args g [] with e | pr
    · simp only [hres] at hh
      exact Except.noConfusion hh
    · simp only [hres] at hh
      rcases pr with ⟨kws, gg⟩
      obtain ⟨hwf', hmono', newkws, hkws, hforall⟩ := h2 kws gg hres
      simp only [Except.ok.injEq, Prod.mk.injEq] at hh
      obtain ⟨ham, hg'⟩ := hh
      subst hg'
      rw [← ham]
      refine ⟨rfl, ?_⟩
      simpa [hkws] using hforall

/-- The declaration data for the C3 witness: f(x : int). -/
def c3Func : FuncData := ⟨"f", ["x"], [("x", .INT64)]⟩

def c3Atoi : String → Option Int := fun v => if v = "7" then some 7 else none

/-- Witness for C3: the single descriptor x="7" against f(x : int) is
accepted and becomes the keyword argument x bound to an Expr over the
coerced Int literal. -/
theorem execFuncArgs_coercion_witness :
    ((isOkB (ProcessExecFuncArgs c2Atob c3Atoi c2Atod c3Func
        [⟨"x", "7"⟩] emptyIR) = true) ↔
      ∀ a ∈ [(⟨"x", "7"⟩ : ArgValue)], argAccepted c2Atob c3Atoi c2Atod c3Func a)
    ∧ ∀ am g', ProcessExecFuncArgs c2Atob c3Atoi c2Atod c3Func
        [⟨"x", "7"⟩] emptyIR = .ok (am, g') →
        am.args = [] ∧
        List.Forall₂ (kwargBuilt c2Atob c3Atoi c2Atod c3Func g')
          [⟨"x", "7"⟩] am.kwargs :=
  execFuncArgs_coercion c2Atob c3Atoi c2Atod c3Func [⟨"x", "7"⟩] emptyIR
    (by unfold IR.WF; decide)

end Pixie
